import Mathlib

/-!
Shallow embedding of `calc.py`, a monadic parser-combinator library with an
arithmetic-expression grammar.

Modelling decisions, all taken from the source:

* A parsing context is the remaining input, a `List Char` (Python slices
  strings, never mutating them).
* Python values flowing through parsers are dynamically typed; they are
  embedded as the inductive `PyVal`.  The four operator lambdas produced by
  `addop`/`mulop` are defunctionalised into `PyVal.binop` together with
  `applyOp`.  The `ParserError` *class object*, which `many` uses as an
  in-band sentinel (`p | Parser.ret(ParserError)` followed by
  `x is ParserError`), is the constructor `PyVal.peClass`.
* A parser either returns `(value, rest)`, raises the backtracking signal
  `ParserError` (`PRes.perr`), or raises some other Python exception such as
  the `SyntaxError` coming out of `eval` (`PRes.exn`).  `bind` propagates
  both kinds of exception; `__or__` catches only `ParserError`.
* The generator-driven do-notation (`do`/`reduce`) desugars each decorated
  generator into nested `bind` calls, exactly as §4.4 of the design allows;
  the embedding writes those binds directly.
* `many`'s `while True` loop is embedded with explicit fuel
  (`input length + 1` suffices whenever every success of the repeated parser
  consumes input); running out of fuel yields the non-parse exception that
  CPython's unbounded recursion would eventually raise.
* The mutually recursive grammar `expr`/`term`/`factor` recurses through
  parse-time self reference in Python; it is embedded with generous explicit
  fuel as well.
* `eval` applied to the collected digit/dot characters is modelled by
  `evalNum`, which implements Python's numeric-literal rules restricted to
  the alphabet `"1234567890."` that `digits` can collect: an integer literal
  must not have a leading zero unless it is all zeros, a float literal has
  exactly one dot and at least one digit, anything else raises a
  `SyntaxError` — an exception distinct from `ParserError`.  Numbers are
  `ℚ` (all values reachable in the claims are exact in Python floats too).
-/

namespace PyCalc

/-- The four arithmetic operator lambdas produced by `addop`/`mulop`. -/
inductive Op : Type where
  | add
  | sub
  | mul
  | div
  deriving DecidableEq

/-- A dynamically-typed Python value as it flows through the parsers:
a one-character string, a string, a number, a list, one of the four operator
functions, or the `ParserError` class object itself (used by `many` as its
termination sentinel). -/
inductive PyVal : Type where
  | ch (c : Char)
  | str (s : List Char)
  | num (q : ℚ)
  | list (vs : List PyVal)
  | binop (o : Op)
  | peClass

/-- The remaining input: Python string slices, embedded as `List Char`. -/
abbrev Ctx := List Char

/-- Result of running a parser on a context: success with a value and the
remaining input, the `ParserError` backtracking signal, or a non-`ParserError`
Python exception (e.g. the `SyntaxError` raised by `eval`). -/
inductive PRes : Type where
  | ok (v : PyVal) (rest : Ctx)
  | perr (msg : String)
  | exn (msg : String)

/-- True on the failure results (either exception kind). -/
def PRes.isFailure : PRes → Bool
  | .ok _ _ => false
  | _ => true

/-- A parser is a function from a context to a parse result
(`Parser.parse` in the source). -/
def Parser : Type := Ctx → PRes

/-- `Parser.ret`: succeed with `value`, consuming nothing. -/
def Parser.ret (v : PyVal) : Parser := fun ctx => .ok v ctx

/-- `Parser.bind`: run `p`; feed its value to `f` and run the resulting
parser on the remaining input; both exception kinds propagate. -/
def Parser.bind (p : Parser) (f : PyVal → Parser) : Parser := fun ctx =>
  match p ctx with
  | .ok a rest => f a rest
  | .perr m => .perr m
  | .exn m => .exn m

/-- `Parser.__or__`: run `p`; on a `ParserError` run `q` on the original
context; successes and non-`ParserError` exceptions pass through. -/
def Parser.orElse (p q : Parser) : Parser := fun ctx =>
  match p ctx with
  | .perr _ => q ctx
  | r => r

/-- The effect of a bare `raise ParserError(msg)` inside a do-generator. -/
def Parser.fail (m : String) : Parser := fun _ => .perr m

/-- `pick()`: return the first element without consuming it. -/
def pick : Parser := fun ctx =>
  match ctx with
  | [] => .perr "unexpected EOF"
  | c :: _ => .ok (.ch c) ctx

/-- `pop()`: return the first element and advance past it. -/
def pop : Parser := fun ctx =>
  match ctx with
  | [] => .perr "unexpected EOF"
  | c :: rest => .ok (.ch c) rest

/-- The message of the `ParserError` raised by `sat` (`f"unexpected {ch}"`). -/
def satMsg : PyVal → String
  | .ch c => ("unexpected ").push c
  | _ => "unexpected"

/-- `sat(p)`: pop one element; succeed with it when the predicate holds,
otherwise raise `ParserError`.  The desugaring of its do-generator. -/
def sat (p : PyVal → Bool) : Parser :=
  Parser.bind pop fun c =>
    if p c then Parser.ret c else Parser.fail (satMsg c)

/-- Python `x == ch` where `ch` is a one-character string: true exactly on
that character, false (no exception) on every other value. -/
def eqChar (c : Char) : PyVal → Bool
  | .ch d => d = c
  | _ => false

/-- `char(ch) = sat(lambda x: x == ch)`. -/
def char (c : Char) : Parser := sat (eqChar c)

/-- The unrolled `for ch in s: yield char(ch)` loop of `string(s)`:
one `char` per remaining element, then `return Parser.ret(s)` with the whole
literal. -/
def stringAux (s : List Char) : List Char → Parser
  | [] => Parser.ret (.str s)
  | c :: cs => Parser.bind (char c) fun _ => stringAux s cs

/-- `string(s)`: match the literal `s` character by character, succeeding
with `s` itself. -/
def string (s : List Char) : Parser := stringAux s s

/-- Python `x is ParserError`: identity with the `ParserError` class object. -/
def isPE : PyVal → Bool
  | .peClass => true
  | _ => false

/-- One fuel-indexed unrolling of `many`'s `while True` loop: run
`p | Parser.ret(ParserError)`; on the sentinel return the accumulated list,
otherwise append the value and continue.  Exhausted fuel stands for the
`RecursionError` CPython's ever-deepening `reduce`/`bind` nesting raises on
a non-terminating repetition. -/
def manyAux (p : Parser) : Nat → List PyVal → Parser
  | 0, _ => fun _ => .exn "maximum recursion depth exceeded"
  | n + 1, acc =>
    Parser.bind (Parser.orElse p (Parser.ret .peClass)) fun x =>
      if isPE x then Parser.ret (.list acc) else manyAux p n (acc ++ [x])

/-- `many(p)`: the loop above; `length + 1` rounds of fuel are enough for
every terminating run of the loop (each round either consumes input or is
the final sentinel round). -/
def many (p : Parser) : Parser := fun ctx => manyAux p (ctx.length + 1) [] ctx

/-- `many1(p)`: one `p`, then `many(p)`, prepending with `[x] + xs`
(a `TypeError` if `xs` were not a list, which `many` never produces). -/
def many1 (p : Parser) : Parser :=
  Parser.bind p fun x =>
    Parser.bind (many p) fun xs =>
      match xs with
      | .list l => Parser.ret (.list (x :: l))
      | _ => fun _ => .exn "TypeError"

/-- Python `x in " \t\n\r"` on a parsed element. -/
def isWS : PyVal → Bool
  | .ch c => ((" \t\n\r").toList).contains c
  | _ => false

/-- `space`: skip zero or more whitespace characters. -/
def space : Parser := fun ctx => many (sat isWS) ctx

/-- `token(p)`: run `p`, then skip trailing whitespace, keeping `p`'s value. -/
def token (p : Parser) : Parser :=
  Parser.bind p fun a => Parser.bind space fun _ => Parser.ret a

/-- `symb(s) = token(string(s))`. -/
def symb (s : List Char) : Parser := token (string s)

/-- The natural number denoted by a list of decimal digits. -/
def digitsToNat (ds : List Char) : Nat :=
  ds.foldl (fun acc c => 10 * acc + (c.toNat - ('0').toNat)) 0

/-- Python `eval` on the digit/dot text collected by `digits` (the only text
it is ever applied to).  A dot-free literal is a decimal integer, invalid on
a leading zero unless it is all zeros; a one-dot literal is a float needing
at least one digit; anything else (two or more dots, a lone dot) raises
`SyntaxError`, which is not a `ParserError`. -/
def evalNum (s : List Char) : Except String ℚ :=
  match s.splitOn '.' with
  | [ds] =>
    if ds = [] then .error "invalid syntax"
    else if ds.head? = some '0' ∧ ¬ ds.all (fun c => c = '0') then
      .error "invalid syntax"
    else .ok (digitsToNat ds)
  | [ip, fp] =>
    if ip = [] ∧ fp = [] then .error "invalid syntax"
    else .ok ((digitsToNat ip : ℚ) + (digitsToNat fp : ℚ) / (10 : ℚ) ^ fp.length)
  | _ => .error "invalid syntax"

/-- Python `"".join(x)` on the list collected by `many1`: concatenate string
elements (a character counts as a one-character string); `none` is the
`TypeError` raised on a non-string element. -/
def joinStrs : PyVal → Option (List Char)
  | .list vs =>
    vs.foldr
      (fun v acc =>
        match v, acc with
        | .ch c, some s => some (c :: s)
        | .str t, some s => some (t ++ s)
        | _, _ => none)
      (some [])
  | _ => none

/-- The character class of `digits`: `lambda z: z in "1234567890."`. -/
def isDigitDot : PyVal → Bool
  | .ch c => (("1234567890.").toList).contains c
  | _ => false

/-- `digits`: collect one or more digit/dot characters (plus trailing
whitespace) and evaluate the joined text with `eval`; an invalid literal
raises the non-parse exception coming out of `eval`. -/
def digits : Parser := fun ctx =>
  match token (many1 (sat isDigitDot)) ctx with
  | .ok x rest =>
    match joinStrs x with
    | some s =>
      match evalNum s with
      | .ok q => .ok (.num q) rest
      | .error m => .exn m
    | none => .exn "TypeError"
  | .perr m => .perr m
  | .exn m => .exn m

/-- Calling the parsed operator value on the two parsed operands, as Python
`op(n1, n2)`: arithmetic on two numbers, `ZeroDivisionError` on a zero
divisor, `TypeError` anywhere outside the reachable cases. -/
def applyOp : PyVal → PyVal → PyVal → Except String PyVal
  | .binop o, .num a, .num b =>
    match o with
    | .add => .ok (.num (a + b))
    | .sub => .ok (.num (a - b))
    | .mul => .ok (.num (a * b))
    | .div => if b = 0 then .error "division by zero" else .ok (.num (a / b))
  | _, _, _ => .error "TypeError"

/-- `Parser.ret(op(n1, n2))`: evaluating the application first, so that the
exception it may raise propagates instead of a value being returned. -/
def applyRet (op n1 n2 : PyVal) : Parser := fun ctx =>
  match applyOp op n1 n2 with
  | .ok v => .ok v ctx
  | .error m => .exn m

/-- `operator(p_op, p_n1, p_n2)`: parse the left operand, the operator, the
right operand, in that order, then apply. -/
def operator (pOp pn1 pn2 : Parser) : Parser :=
  Parser.bind pn1 fun n1 =>
    Parser.bind pOp fun op =>
      Parser.bind pn2 fun n2 => applyRet op n1 n2

/-- The `plus` alternative of `addop`. -/
def plus : Parser := Parser.bind (symb (("+").toList)) fun _ => Parser.ret (.binop .add)

/-- The `minus` alternative of `addop`. -/
def minus : Parser := Parser.bind (symb (("-").toList)) fun _ => Parser.ret (.binop .sub)

/-- The `times` alternative of `mulop`. -/
def times : Parser := Parser.bind (symb (("*").toList)) fun _ => Parser.ret (.binop .mul)

/-- The `divide` alternative of `mulop`. -/
def divide : Parser := Parser.bind (symb (("/").toList)) fun _ => Parser.ret (.binop .div)

/-- `addop(pn1, pn2) = operator(plus | minus, pn1, pn2)`. -/
def addop (pn1 pn2 : Parser) : Parser := operator (Parser.orElse plus minus) pn1 pn2

/-- `mulop(pn1, pn2) = operator(times | divide, pn1, pn2)`. -/
def mulop (pn1 pn2 : Parser) : Parser := operator (Parser.orElse times divide) pn1 pn2

/-- Names for the four mutually recursive grammar entry points. -/
inductive GTag : Type where
  | ge
  | gt
  | gf
  | gp

/-- The fuel-indexed grammar.  Python ties the `expr`/`term`/`factor` knot
through parse-time self-reference; here one step of fuel is spent on each
entry into a production:
`expr = addop(term, expr) | term`, `term = mulop(factor, term) | factor`,
`factor = digits | parenthesis`, and the parenthesis alternative is the
desugared `yield symb("("); n = yield expr; yield symb(")"); return ret(n)`.
Exhausted fuel stands for CPython's `RecursionError`; no input reachable by
the claims comes near the bound. -/
def gram : Nat → GTag → Parser
  | 0, _ => fun _ => .exn "maximum recursion depth exceeded"
  | n + 1, .ge => Parser.orElse (addop (gram n .gt) (gram n .ge)) (gram n .gt)
  | n + 1, .gt => Parser.orElse (mulop (gram n .gf) (gram n .gt)) (gram n .gf)
  | n + 1, .gf => Parser.orElse digits (gram n .gp)
  | n + 1, .gp =>
    Parser.bind (symb (("(").toList)) fun _ =>
      Parser.bind (gram n .ge) fun v =>
        Parser.bind (symb ((")").toList)) fun _ => Parser.ret v

/-- Fuel that dominates every terminating parse: each entry into a
production either consumes a character before re-entering or moves down the
fixed three-level `expr`/`term`/`factor` chain. -/
def gramFuel (ctx : Ctx) : Nat := 8 * ctx.length + 8

/-- The top-level `expr` parser. -/
def expr : Parser := fun ctx => gram (gramFuel ctx) .ge ctx

/-- The `term` parser. -/
def term : Parser := fun ctx => gram (gramFuel ctx) .gt ctx

/-- The `factor` parser. -/
def factor : Parser := fun ctx => gram (gramFuel ctx) .gf ctx

/-- A parser never pretends to have consumed more than existed: every
successful run returns a suffix of the context it was given. -/
def SuffixSafe (p : Parser) : Prop :=
  ∀ ctx v rest, p ctx = .ok v rest → rest <:+ ctx

/-- Syntax of the public combinators of the module: a parser is *built from
the public combinators* exactly when it is the denotation of such a term. -/
inductive Comb : Type where
  | ret (v : PyVal)
  | bind (c : Comb) (f : PyVal → Comb)
  | orElse (c₁ c₂ : Comb)
  | pickC
  | popC
  | satC (p : PyVal → Bool)
  | charC (c : Char)
  | stringC (s : List Char)
  | manyC (c : Comb)
  | many1C (c : Comb)
  | spaceC
  | tokenC (c : Comb)
  | symbC (s : List Char)
  | operatorC (cop c₁ c₂ : Comb)
  | addopC (c₁ c₂ : Comb)
  | mulopC (c₁ c₂ : Comb)
  | digitsC
  | exprC
  | termC
  | factorC

/-- The parser a combinator term denotes. -/
def denote : Comb → Parser
  | .ret v => Parser.ret v
  | .bind c f => Parser.bind (denote c) fun a => denote (f a)
  | .orElse c₁ c₂ => Parser.orElse (denote c₁) (denote c₂)
  | .pickC => pick
  | .popC => pop
  | .satC p => sat p
  | .charC c => char c
  | .stringC s => string s
  | .manyC c => many (denote c)
  | .many1C c => many1 (denote c)
  | .spaceC => space
  | .tokenC c => token (denote c)
  | .symbC s => symb s
  | .operatorC cop c₁ c₂ => operator (denote cop) (denote c₁) (denote c₂)
  | .addopC c₁ c₂ => addop (denote c₁) (denote c₂)
  | .mulopC c₁ c₂ => mulop (denote c₁) (denote c₂)
  | .digitsC => digits
  | .exprC => expr
  | .termC => term
  | .factorC => factor

/-- Every success of `p` consumes at least one input element. -/
def ConsumesOnSuccess (p : Parser) : Prop :=
  ∀ ctx v rest, p ctx = .ok v rest → rest.length < ctx.length

/-- No success of `p` produces the `ParserError` class object as its value. -/
def NoSentinel (p : Parser) : Prop :=
  ∀ ctx v rest, p ctx = .ok v rest → isPE v = false

/-- `p` never raises a non-`ParserError` exception. -/
def NoExn (p : Parser) : Prop :=
  ∀ ctx m, p ctx ≠ .exn m

/-- `Collects p ctx vs rest`: the values of the successive successful runs
of `p` starting from `ctx` are exactly `vs`, stopping at the first
`ParserError`, with `rest` the input remaining there. -/
inductive Collects (p : Parser) : Ctx → List PyVal → Ctx → Prop where
  | stop (ctx : Ctx) (m : String) (h : p ctx = .perr m) :
      Collects p ctx [] ctx
  | step (ctx : Ctx) (v : PyVal) (r : Ctx) (vs : List PyVal) (rest : Ctx)
      (h : p ctx = .ok v r) (hc : Collects p r vs rest) :
      Collects p ctx (v :: vs) rest

/-- A parser that consumes one element on every success but returns the
`ParserError` class object as its parsed value (legal in Python, where the
class is an ordinary first-class object). -/
def sentinelEater : Parser := fun ctx =>
  match ctx with
  | [] => .perr "unexpected EOF"
  | _ :: rest => .ok .peClass rest

theorem suffixSafe_ret (v : PyVal) : SuffixSafe (Parser.ret v) := by
  intro ctx w rest h
  simp only [Parser.ret] at h
  cases h
  exact List.suffix_refl _

theorem suffixSafe_fail (m : String) : SuffixSafe (Parser.fail m) := by
  intro ctx w rest h
  exact PRes.noConfusion h

theorem suffixSafe_exnFun (m : String) : SuffixSafe (fun _ => PRes.exn m) := by
  intro ctx w rest h
  exact PRes.noConfusion h

theorem suffixSafe_ite (c : Prop) [Decidable c] {p q : Parser}
    (hp : SuffixSafe p) (hq : SuffixSafe q) : SuffixSafe (if c then p else q) := by
  by_cases h : c
  · rwa [if_pos h]
  · rwa [if_neg h]

theorem suffixSafe_bind {p : Parser} {f : PyVal → Parser}
    (hp : SuffixSafe p) (hf : ∀ a, SuffixSafe (f a)) :
    SuffixSafe (Parser.bind p f) := by
  intro ctx v rest h
  simp only [Parser.bind] at h
  cases hq : p ctx with
  | ok a r =>
    rw [hq] at h
    exact (hf a r v rest h).trans (hp ctx a r hq)
  | perr m => rw [hq] at h; exact PRes.noConfusion h
  | exn m => rw [hq] at h; exact PRes.noConfusion h

theorem suffixSafe_orElse {p q : Parser}
    (hp : SuffixSafe p) (hq : SuffixSafe q) :
    SuffixSafe (Parser.orElse p q) := by
  intro ctx v rest h
  simp only [Parser.orElse] at h
  cases hr : p ctx with
  | ok a r =>
    rw [hr] at h
    cases h
    exact hp ctx v rest hr
  | perr m =>
    rw [hr] at h
    exact hq ctx v rest h
  | exn m => rw [hr] at h; exact PRes.noConfusion h

theorem suffixSafe_pick : SuffixSafe pick := by
  intro ctx v rest h
  cases ctx with
  | nil => exact PRes.noConfusion h
  | cons c cs =>
    simp only [pick] at h
    cases h
    exact List.suffix_refl _

theorem suffixSafe_pop : SuffixSafe pop := by
  intro ctx v rest h
  cases ctx with
  | nil => exact PRes.noConfusion h
  | cons c cs =>
    simp only [pop] at h
    cases h
    exact List.suffix_cons _ _

theorem suffixSafe_sat (p : PyVal → Bool) : SuffixSafe (sat p) :=
  suffixSafe_bind suffixSafe_pop fun a =>
    suffixSafe_ite _ (suffixSafe_ret a) (suffixSafe_fail _)

theorem suffixSafe_char (c : Char) : SuffixSafe (char c) :=
  suffixSafe_sat _

theorem suffixSafe_stringAux (s : List Char) :
    ∀ cs, SuffixSafe (stringAux s cs) := by
  intro cs
  induction cs with
  | nil => exact suffixSafe_ret _
  | cons c cs ih => exact suffixSafe_bind (suffixSafe_char c) fun _ => ih

theorem suffixSafe_string (s : List Char) : SuffixSafe (string s) :=
  suffixSafe_stringAux s s

theorem suffixSafe_manyAux {p : Parser} (hp : SuffixSafe p) :
    ∀ n acc, SuffixSafe (manyAux p n acc) := by
  intro n
  induction n with
  | zero => intro acc; exact suffixSafe_exnFun _
  | succ n ih =>
    intro acc
    exact suffixSafe_bind (suffixSafe_orElse hp (suffixSafe_ret _)) fun x =>
      suffixSafe_ite _ (suffixSafe_ret _) (ih _)

theorem suffixSafe_many {p : Parser} (hp : SuffixSafe p) :
    SuffixSafe (many p) := by
  intro ctx v rest h
  exact suffixSafe_manyAux hp (ctx.length + 1) [] ctx v rest h

theorem suffixSafe_many1 {p : Parser} (hp : SuffixSafe p) :
    SuffixSafe (many1 p) := by
  refine suffixSafe_bind hp fun x => suffixSafe_bind (suffixSafe_many hp) fun xs => ?_
  cases xs with
  | list l => exact suffixSafe_ret _
  | ch c => exact suffixSafe_exnFun _
  | str s => exact suffixSafe_exnFun _
  | num q => exact suffixSafe_exnFun _
  | binop o => exact suffixSafe_exnFun _
  | peClass => exact suffixSafe_exnFun _

theorem suffixSafe_space : SuffixSafe space := by
  intro ctx v rest h
  exact suffixSafe_many (suffixSafe_sat isWS) ctx v rest h

theorem suffixSafe_token {p : Parser} (hp : SuffixSafe p) :
    SuffixSafe (token p) :=
  suffixSafe_bind hp fun a =>
    suffixSafe_bind suffixSafe_space fun _ => suffixSafe_ret a

theorem suffixSafe_symb (s : List Char) : SuffixSafe (symb s) :=
  suffixSafe_token (suffixSafe_string s)

theorem suffixSafe_applyRet (op n1 n2 : PyVal) :
    SuffixSafe (applyRet op n1 n2) := by
  intro ctx v rest h
  simp only [applyRet] at h
  cases ha : applyOp op n1 n2 with
  | ok w => rw [ha] at h; cases h; exact List.suffix_refl _
  | error m => rw [ha] at h; cases h

theorem suffixSafe_operator {pOp pn1 pn2 : Parser}
    (ho : SuffixSafe pOp) (h1 : SuffixSafe pn1) (h2 : SuffixSafe pn2) :
    SuffixSafe (operator pOp pn1 pn2) :=
  suffixSafe_bind h1 fun n1 =>
    suffixSafe_bind ho fun op =>
      suffixSafe_bind h2 fun n2 => suffixSafe_applyRet op n1 n2

theorem suffixSafe_plus : SuffixSafe plus :=
  suffixSafe_bind (suffixSafe_symb _) fun _ => suffixSafe_ret _

theorem suffixSafe_minus : SuffixSafe minus :=
  suffixSafe_bind (suffixSafe_symb _) fun _ => suffixSafe_ret _

theorem suffixSafe_times : SuffixSafe times :=
  suffixSafe_bind (suffixSafe_symb _) fun _ => suffixSafe_ret _

theorem suffixSafe_divide : SuffixSafe divide :=
  suffixSafe_bind (suffixSafe_symb _) fun _ => suffixSafe_ret _

theorem suffixSafe_addop {pn1 pn2 : Parser}
    (h1 : SuffixSafe pn1) (h2 : SuffixSafe pn2) :
    SuffixSafe (addop pn1 pn2) :=
  suffixSafe_operator (suffixSafe_orElse suffixSafe_plus suffixSafe_minus) h1 h2

theorem suffixSafe_mulop {pn1 pn2 : Parser}
    (h1 : SuffixSafe pn1) (h2 : SuffixSafe pn2) :
    SuffixSafe (mulop pn1 pn2) :=
  suffixSafe_operator (suffixSafe_orElse suffixSafe_times suffixSafe_divide) h1 h2

theorem suffixSafe_digits : SuffixSafe digits := by
  intro ctx v rest h
  cases ht : token (many1 (sat isDigitDot)) ctx with
  | ok x r =>
    have hr : r <:+ ctx :=
      suffixSafe_token (suffixSafe_many1 (suffixSafe_sat isDigitDot)) ctx x r ht
    cases hj : joinStrs x with
    | some s =>
      cases he : evalNum s with
      | ok q =>
        simp only [digits, ht, hj, he] at h
        cases h
        exact hr
      | error m =>
        simp only [digits, ht, hj, he] at h
        exact PRes.noConfusion h
    | none =>
      simp only [digits, ht, hj] at h
      exact PRes.noConfusion h
  | perr m =>
    simp only [digits, ht] at h
    exact PRes.noConfusion h
  | exn m =>
    simp only [digits, ht] at h
    exact PRes.noConfusion h

theorem suffixSafe_gram : ∀ n t, SuffixSafe (gram n t) := by
  intro n
  induction n with
  | zero => intro t; exact suffixSafe_exnFun _
  | succ n ih =>
    intro t
    cases t with
    | ge => exact suffixSafe_orElse (suffixSafe_addop (ih .gt) (ih .ge)) (ih .gt)
    | gt => exact suffixSafe_orElse (suffixSafe_mulop (ih .gf) (ih .gt)) (ih .gf)
    | gf => exact suffixSafe_orElse suffixSafe_digits (ih .gp)
    | gp =>
      exact suffixSafe_bind (suffixSafe_symb _) fun _ =>
        suffixSafe_bind (ih .ge) fun v =>
          suffixSafe_bind (suffixSafe_symb _) fun _ => suffixSafe_ret v

theorem suffixSafe_expr : SuffixSafe expr := by
  intro ctx v rest h
  exact suffixSafe_gram (gramFuel ctx) .ge ctx v rest h

theorem suffixSafe_term : SuffixSafe term := by
  intro ctx v rest h
  exact suffixSafe_gram (gramFuel ctx) .gt ctx v rest h

theorem suffixSafe_factor : SuffixSafe factor := by
  intro ctx v rest h
  exact suffixSafe_gram (gramFuel ctx) .gf ctx v rest h

theorem collects_det {p : Parser} {ctx : Ctx} {vs : List PyVal} {rest : Ctx}
    (h : Collects p ctx vs rest) :
    ∀ {vs2 : List PyVal} {rest2 : Ctx}, Collects p ctx vs2 rest2 →
      vs = vs2 ∧ rest = rest2 := by
  induction h with
  | stop ctx m hp =>
    intro vs2 rest2 h2
    cases h2 with
    | stop ctx2 m2 hp2 => exact ⟨rfl, rfl⟩
    | step ctx2 w r ws rest2a hq hc => rw [hp] at hq; exact PRes.noConfusion hq
  | step ctx v r vs rest hq hc ih =>
    intro vs2 rest2 h2
    cases h2 with
    | stop ctx2 m2 hp2 => rw [hq] at hp2; exact PRes.noConfusion hp2
    | step ctx2 w r2 ws rest2a hq2 hc2 =>
      rw [hq] at hq2
      injection hq2 with e1 e2
      subst e1
      subst e2
      obtain ⟨g1, g2⟩ := ih hc2
      exact ⟨by rw [g1], g2⟩

theorem manyAux_collects {p : Parser} (hcons : ConsumesOnSuccess p)
    (hsent : NoSentinel p) (hexn : NoExn p) :
    ∀ (n : Nat) (ctx : Ctx) (acc : List PyVal), ctx.length < n →
      ∃ vs rest, manyAux p n acc ctx = .ok (.list (acc ++ vs)) rest ∧
        Collects p ctx vs rest := by
  intro n
  induction n with
  | zero => intro ctx acc h; exact absurd h (Nat.not_lt_zero _)
  | succ n ih =>
    intro ctx acc hlt
    cases hq : p ctx with
    | ok v r =>
      have hv : isPE v = false := hsent ctx v r hq
      have hr : r.length < ctx.length := hcons ctx v r hq
      obtain ⟨vs, rest, h1, h2⟩ := ih r (acc ++ [v]) (by omega)
      refine ⟨v :: vs, rest, ?_, Collects.step ctx v r vs rest hq h2⟩
      simp only [manyAux, Parser.bind, Parser.orElse, hq, hv, Bool.false_eq_true,
        if_false, h1, List.append_assoc, List.singleton_append]
    | perr m =>
      refine ⟨[], ctx, ?_, Collects.stop ctx m hq⟩
      simp only [manyAux, Parser.bind, Parser.orElse, hq, isPE, if_true,
        Parser.ret, List.append_nil]
    | exn m => exact absurd hq (hexn ctx m)

/-- C1 (counterexample): on the input `"  1 + 2  "` the top-level `expr`
parser does not succeed at all — nothing in `expr` skips leading whitespace,
so the very first `sat` fails on the leading blank and the parse ends in a
`ParserError`, not in the value 3 the claim requires. -/
theorem expr_leading_ws_fails :
    expr (("  1 + 2  ").toList) = .perr (("unexpected ").push ' ') := by
  with_unfolding_all rfl

/-- C1 (amended): `expr` fails on `"  1 + 2  "` because leading whitespace
is never consumed (`token` only skips trailing whitespace); with the leading
whitespace removed, `"1 + 2  "`, it succeeds with value 3 and empty
remaining input, the trailing whitespace all consumed. -/
theorem expr_whitespace_amended :
    expr (("  1 + 2  ").toList) = .perr (("unexpected ").push ' ') ∧
    expr (("1 + 2  ").toList) = .ok (.num 3) [] := by
  constructor
  · with_unfolding_all rfl
  · with_unfolding_all rfl

/-- C2 (counterexample): running `expr` on `"1+"` does not fail — no
exception of either kind is the result, so the claim that it raises the
failure signal and produces no value is false. -/
theorem expr_trailing_op_no_failure :
    (expr (("1+").toList)).isFailure = false := by
  with_unfolding_all rfl

/-- C2 (amended): on `"1+"` the attempted `addop(term, expr)` shape fails
(the right operand is missing), `expr` falls back to a bare `term`, and the
parse succeeds with value 1 and remaining input `"+"`; the core does not
enforce full consumption, so no failure signal is raised — rejecting the
leftover `"+"` is left to the caller. -/
theorem expr_trailing_op_succeeds :
    expr (("1+").toList) = .ok (.num 1) (("+").toList) := by
  with_unfolding_all rfl

/-- C3: when the first parser fails with the `ParserError` signal, the
alternation runs the second parser on the original, unconsumed input and is
extensionally identical to it there — in particular, when the second parser
also fails, the combined parser fails with precisely the second parser's
failure. -/
theorem orElse_fallback :
    ∀ (p1 p2 : Parser) (ctx : Ctx) (m : String),
      p1 ctx = .perr m →
      Parser.orElse p1 p2 ctx = p2 ctx ∧
      (∀ m2, p2 ctx = .perr m2 → Parser.orElse p1 p2 ctx = .perr m2) := by
  intro p1 p2 ctx m h
  have hor : Parser.orElse p1 p2 ctx = p2 ctx := by
    simp only [Parser.orElse, h]
  exact ⟨hor, fun m2 h2 => by rw [hor, h2]⟩

/-- C3 witness: `pop` fails on empty input, and the alternation with `pick`
then behaves exactly as `pick` on that input. -/
theorem orElse_fallback_witness :
    Parser.orElse pop pick [] = pick [] :=
  (orElse_fallback pop pick [] "unexpected EOF" rfl).1

/-- C4: `expr` on `"10/2/5"` succeeds with value 25 (Python prints `25.0`)
and empty remaining input: because `term` is right-recursive, division
groups as `10/(2/5)`, whose exact value is 25, and not as the
left-associative `(10/2)/5`, whose value is not 25. -/
theorem expr_div_right_assoc :
    expr (("10/2/5").toList) = .ok (.num 25) [] ∧
    (10 : ℚ) / (2 / 5) = 25 ∧ (10 : ℚ) / 2 / 5 ≠ 25 := by
  refine ⟨?_, by norm_num, by norm_num⟩
  with_unfolding_all rfl

/-- C5 (counterexample): the totality claim quantifies over *every* parser
that consumes input on success, but a parser whose parsed value is the
`ParserError` class object itself defeats it: `sentinelEater` consumes one
element on every success and, run on `"ab"`, succeeds twice and then fails,
so the claim predicts the two collected values with nothing left; `many`
instead stops at the first success, discards it, and returns the empty list
with `"b"` remaining. -/
theorem many_collects_all_cex :
    ConsumesOnSuccess sentinelEater ∧
    Collects sentinelEater (("ab").toList) [.peClass, .peClass] [] ∧
    many sentinelEater (("ab").toList) = .ok (.list []) (("b").toList) ∧
    many sentinelEater (("ab").toList) ≠ .ok (.list [.peClass, .peClass]) [] := by
  have hm : many sentinelEater (("ab").toList) = .ok (.list []) (("b").toList) := by
    with_unfolding_all rfl
  refine ⟨?_, ?_, hm, ?_⟩
  · intro ctx v rest h
    cases ctx with
    | nil => exact PRes.noConfusion h
    | cons c cs =>
      simp only [sentinelEater] at h
      cases h
      exact Nat.lt_succ_self _
  · exact Collects.step _ .peClass (("b").toList) _ _ rfl
      (Collects.step _ .peClass [] _ _ rfl (Collects.stop _ "unexpected EOF" rfl))
  · intro hcontra
    rw [hm] at hcontra
    injection hcontra with e1 e2
    exact absurd e2 (by decide)

/-- C5 (amended): for every parser that consumes at least one element on
every success, never yields the `ParserError` class object as a value and
never raises a non-parse exception, `many` is total: some collection run
exists for every input, and `many` returns exactly the ordered list of
values from the successive successful runs, stopping at the first
`ParserError`, without ever failing. -/
theorem many_total_amended :
    ∀ p : Parser, ConsumesOnSuccess p → NoSentinel p → NoExn p →
      ∀ ctx : Ctx,
        (∃ vs rest, Collects p ctx vs rest) ∧
        (∀ vs rest, Collects p ctx vs rest →
          many p ctx = .ok (.list vs) rest) := by
  intro p hc hs he ctx
  obtain ⟨vs, rest, h1, h2⟩ :=
    manyAux_collects hc hs he (ctx.length + 1) ctx [] (Nat.lt_succ_self _)
  refine ⟨⟨vs, rest, h2⟩, ?_⟩
  intro vs2 rest2 hcol
  obtain ⟨e1, e2⟩ := collects_det h2 hcol
  subst e1
  subst e2
  simp only [List.nil_append] at h1
  exact h1

/-- C5 witness: `pop` consumes one element on every success, and
`many(pop)` on `"ab"` collects both characters with nothing remaining. -/
theorem many_total_amended_witness :
    many pop (("ab").toList) = .ok (.list [.ch 'a', .ch 'b']) [] := by
  refine (many_total_amended pop ?_ ?_ ?_ (("ab").toList)).2 [.ch 'a', .ch 'b'] [] ?_
  · intro ctx v rest h
    cases ctx with
    | nil => exact PRes.noConfusion h
    | cons c cs =>
      simp only [pop] at h
      cases h
      exact Nat.lt_succ_self _
  · intro ctx v rest h
    cases ctx with
    | nil => exact PRes.noConfusion h
    | cons c cs =>
      simp only [pop] at h
      cases h
      rfl
  · intro ctx m h
    cases ctx with
    | nil => exact PRes.noConfusion h
    | cons c cs => exact PRes.noConfusion h
  · exact Collects.step _ (.ch 'a') (("b").toList) _ _ rfl
      (Collects.step _ (.ch 'b') [] _ _ rfl (Collects.stop _ "unexpected EOF" rfl))

/-- C6: `ret` and `bind` satisfy the three monad laws extensionally, as
equalities of parse results on every input: left identity, right identity,
and associativity. -/
theorem parser_monad_laws :
    (∀ (v : PyVal) (f : PyVal → Parser) (ctx : Ctx),
      Parser.bind (Parser.ret v) f ctx = f v ctx) ∧
    (∀ (p : Parser) (ctx : Ctx), Parser.bind p Parser.ret ctx = p ctx) ∧
    (∀ (p : Parser) (f g : PyVal → Parser) (ctx : Ctx),
      Parser.bind (Parser.bind p f) g ctx
        = Parser.bind p (fun x => Parser.bind (f x) g) ctx) := by
  refine ⟨fun v f ctx => rfl, fun p ctx => ?_, fun p f g ctx => ?_⟩
  · cases hp : p ctx with
    | ok a r => simp [Parser.bind, hp, Parser.ret]
    | perr m => simp [Parser.bind, hp]
    | exn m => simp [Parser.bind, hp]
  · cases hp : p ctx with
    | ok a r => simp [Parser.bind, hp]
    | perr m => simp [Parser.bind, hp]
    | exn m => simp [Parser.bind, hp]

/-- C7: every parser built from the public combinators — `ret`, `bind`,
alternation, `pick`, `pop`, `sat`, `string`, `many`, `many1`, `space`,
`token`, `symb`, `operator`/`addop`/`mulop` and the grammar productions —
returns, on every successful run, a remaining input that is a suffix of the
input it was given (input is never mutated and never over-consumed). -/
theorem combinators_suffix_safe :
    ∀ (c : Comb) (ctx : Ctx) (v : PyVal) (rest : Ctx),
      denote c ctx = .ok v rest → rest <:+ ctx := by
  intro c
  induction c with
  | ret v => exact suffixSafe_ret v
  | bind c f ihc ihf => exact suffixSafe_bind ihc ihf
  | orElse c₁ c₂ ih₁ ih₂ => exact suffixSafe_orElse ih₁ ih₂
  | pickC => exact suffixSafe_pick
  | popC => exact suffixSafe_pop
  | satC p => exact suffixSafe_sat p
  | charC c => exact suffixSafe_char c
  | stringC s => exact suffixSafe_string s
  | manyC c ih => exact suffixSafe_many ih
  | many1C c ih => exact suffixSafe_many1 ih
  | spaceC => exact suffixSafe_space
  | tokenC c ih => exact suffixSafe_token ih
  | symbC s => exact suffixSafe_symb s
  | operatorC cop c₁ c₂ iho ih₁ ih₂ => exact suffixSafe_operator iho ih₁ ih₂
  | addopC c₁ c₂ ih₁ ih₂ => exact suffixSafe_addop ih₁ ih₂
  | mulopC c₁ c₂ ih₁ ih₂ => exact suffixSafe_mulop ih₁ ih₂
  | digitsC => exact suffixSafe_digits
  | exprC => exact suffixSafe_expr
  | termC => exact suffixSafe_term
  | factorC => exact suffixSafe_factor

/-- C7 witness: `pop` on `"a"` leaves `""`, a suffix of `"a"`. -/
theorem combinators_suffix_safe_witness : [] <:+ (("a").toList) :=
  combinators_suffix_safe Comb.popC (("a").toList) (.ch 'a') [] rfl

/-- C8: whenever the tokenised `many1` of digit/dot characters succeeds and
the collected text joins into a string, `digits` converts that string with
the numeric evaluator: a valid literal yields its number, an invalid one
(for example, one with two decimal points) makes `digits` raise the
conversion exception `PRes.exn`, which is a different error kind from the
parse-failure signal `PRes.perr`. -/
theorem digits_conversion_error :
    ∀ (ctx : Ctx) (x : PyVal) (rest : Ctx) (s : List Char),
      token (many1 (sat isDigitDot)) ctx = .ok x rest →
      joinStrs x = some s →
      (∀ q, evalNum s = .ok q → digits ctx = .ok (.num q) rest) ∧
      (∀ m, evalNum s = .error m →
        digits ctx = .exn m ∧ ∀ m2, PRes.exn m ≠ PRes.perr m2) := by
  intro ctx x rest s ht hj
  constructor
  · intro q hq
    simp only [digits, ht, hj, hq]
  · intro m hm
    refine ⟨?_, fun m2 h => PRes.noConfusion h⟩
    simp only [digits, ht, hj, hm]

/-- C8 witness: on `"1..2"` the collected text is `1..2`, an invalid
literal, and `digits` raises the conversion exception. -/
theorem digits_conversion_error_witness :
    digits (("1..2").toList) = .exn "invalid syntax" :=
  ((digits_conversion_error (("1..2").toList)
      (.list [.ch '1', .ch '.', .ch '.', .ch '2']) [] (("1..2").toList)
      (by with_unfolding_all rfl) rfl).2 "invalid syntax" rfl).1

/-- C9: alternation recovers only from the `ParserError` signal — a
non-`ParserError` exception from the first branch propagates immediately and
the second branch is never run; concretely, the malformed literal in
`"1..2"` makes `factor` (and the whole of `expr`) abort with the conversion
exception instead of trying the parenthesised-expression branch. -/
theorem orElse_exn_propagates :
    (∀ (p q : Parser) (ctx : Ctx) (m : String),
      p ctx = .exn m → Parser.orElse p q ctx = .exn m) ∧
    factor (("1..2").toList) = .exn "invalid syntax" ∧
    expr (("1..2").toList) = .exn "invalid syntax" := by
  refine ⟨fun p q ctx m h => ?_, ?_, ?_⟩
  · simp only [Parser.orElse, h]
  · with_unfolding_all rfl
  · with_unfolding_all rfl

/-- C9 witness: an exception-raising first branch makes the alternation
return that very exception, the second branch notwithstanding. -/
theorem orElse_exn_propagates_witness :
    Parser.orElse (fun _ => PRes.exn "SyntaxError") pop [] = .exn "SyntaxError" :=
  orElse_exn_propagates.1 (fun _ => PRes.exn "SyntaxError") pop [] "SyntaxError" rfl

/-- C10: `many` runs `p | ret(ParserError)` each round and tests the bound
value with `is ParserError`, so whenever `p` itself succeeds producing the
`ParserError` class object as its parsed value, `many(p)` stops right there:
it returns the values collected before that success (none, when it is the
first round) with that success's remaining input, and the success's value is
silently discarded. -/
theorem many_sentinel_value :
    ∀ (p : Parser) (ctx : Ctx) (v : PyVal) (rest : Ctx),
      p ctx = .ok v rest → isPE v = true →
      many p ctx = .ok (.list []) rest := by
  intro p ctx v rest h hv
  show manyAux p (ctx.length + 1) [] ctx = _
  simp only [manyAux, Parser.bind, Parser.orElse, h, hv, if_true, Parser.ret]

/-- C10 witness: a parser returning the `ParserError` class object makes
`many` stop at once, its input untouched only because that parser consumed
nothing. -/
theorem many_sentinel_value_witness :
    many (Parser.ret .peClass) (("a").toList) = .ok (.list []) (("a").toList) :=
  many_sentinel_value (Parser.ret .peClass) (("a").toList) .peClass
    (("a").toList) rfl rfl

end PyCalc
